import Mathlib

/-!
# Depot Tracker — verification of the Position & Dividend Reconciliation Pipeline

Shallow embedding of the core pipeline of the `depot_tracker` repository:

* the statement parser and dividend ledger deduplicator
  (`src/app/services/data_service.py`, `DataManager._extract_dividends_from_statements`),
* the price and momentum enrichment (`src/utils/yfinance_support.py`,
  `update_prices_from_yf`, `fx_to_eur_multiplier`, `_momentum_3m_native`,
  `wkn_to_ticker_lookup`),
* the position enrichment (`src/app/services/depot_service.py`,
  `DepotService._process_positions`),
* the allocation distributor (`src/app/services/data_service.py`,
  `DataManager._add_allocation_columns`) together with the metadata registry
  (`src/app/services/wkn_metadata_service.py`).

Numbers are modelled as rationals (`ℚ`); Python `float` values that can be
`NaN` are modelled as `Option ℚ` with `none` standing for `NaN`/missing.
External I/O (the YAML ledger file, the JSON caches, the yfinance provider)
is modelled as explicit input data.
-/

set_option maxHeartbeats 1600000
set_option maxRecDepth 4096

namespace DepotTracker

/-! ## Generic helpers -/

/-- Association-list lookup; models a Python `dict` lookup (`cache[k]` /
`k in cache`).  First hit wins, so maps built by consing the newest binding
to the front realise `dict` overwrite semantics. -/
def alookup {α β : Type} [DecidableEq α] (k : α) : List (α × β) → Option β
  | [] => none
  | p :: ps => if p.1 = k then some p.2 else alookup k ps

/-- Whether `needle` occurs as a contiguous sublist of `hay`
(Python `needle in hay` on strings). -/
def containsSub (needle : List Char) : List Char → Bool
  | [] => needle.isEmpty
  | c :: t => needle.isPrefixOf (c :: t) || containsSub needle t

/-- Python `needle in hay` for strings. -/
def strContains (hay needle : String) : Bool :=
  containsSub needle.toList hay.toList

/-- Python `str.upper()` (the statement texts are ASCII). -/
def pyUpper (s : String) : String := String.mk (s.toList.map Char.toUpper)

/-! ## Statement parser & dividend ledger
(`DataManager._extract_dividends_from_statements`) -/

/-- A character matched by the regex class `[A-Z0-9]` (the input is upper-cased
before the WKN regex runs). -/
def isWknChar (c : Char) : Bool := c.isDigit || c.isUpper

/-- A character matched by Python `\s` (ASCII whitespace). -/
def isPySpace (c : Char) : Bool :=
  c = ' ' || c = Char.ofNat 9 || c = Char.ofNat 10 || c = Char.ofNat 13 ||
  c = Char.ofNat 11 || c = Char.ofNat 12

/-- A character matched by the regex class `[\d,.]`. -/
def isNumPunct (c : Char) : Bool := c.isDigit || c = ',' || c = '.'

/-- `re.search(r"04([A-Z0-9]{5,6})", info.upper())`: leftmost position where
`04` is followed by at least five `[A-Z0-9]` characters; the group takes
greedily up to six of them.  (The source applies `.strip()` to the group,
which is the identity on `[A-Z0-9]` text.) -/
def scanWkn : List Char → Option (List Char)
  | [] => none
  | c1 :: rest =>
    match rest with
    | [] => none
    | c2 :: rest2 =>
      if c1 = '0' && c2 = '4' then
        let run := rest2.takeWhile isWknChar
        if 5 ≤ run.length then some (run.take 6) else scanWkn rest
      else scanWkn rest

/-- Drop an exact literal from the front of a character list, or fail. -/
def stripTag : List Char → List Char → Option (List Char)
  | [], s => some s
  | _ :: _, [] => none
  | t :: ts, c :: cs => if t = c then stripTag ts cs else none

/-- Try to match `TAG\s*([\d,.]+)` at the current position, returning the
group.  `\s*` is maximal-munch here: backtracking cannot help because no
whitespace character is in `[\d,.]`. -/
def tryNumAfterTag (tag : List Char) (s : List Char) : Option (List Char) :=
  match stripTag tag s with
  | none => none
  | some r =>
    let g := (r.dropWhile isPySpace).takeWhile isNumPunct
    if g.isEmpty then none else some g

/-- `re.search(TAG + r"\s*([\d,.]+)", info)`: leftmost match wins. -/
def scanTagNum (tag : List Char) : List Char → Option (List Char)
  | [] => tryNumAfterTag tag []
  | c :: rest =>
    match tryNumAfterTag tag (c :: rest) with
    | some g => some g
    | none => scanTagNum tag rest

/-- `re.search(r"USD\s*([\d,.]+)|EUR\s*([\d,.]+)", info)` followed by
`m.group(1) or m.group(2)`: at each position the `USD` alternative is tried
before the `EUR` one; the matched group is returned. -/
def scanDiv : List Char → Option (List Char)
  | [] => none
  | c :: rest =>
    match tryNumAfterTag "USD".toList (c :: rest) with
    | some g => some g
    | none =>
      match tryNumAfterTag "EUR".toList (c :: rest) with
      | some g => some g
      | none => scanDiv rest

/-- Value of a list of decimal digits. -/
def digitsToNat (l : List Char) : ℕ :=
  l.foldl (fun n c => 10 * n + (c.toNat - 48)) 0

/-- Python `str.split(".")` restricted to the dot separator, on character
lists. -/
def splitOnDot : List Char → List (List Char)
  | [] => [[]]
  | c :: rest =>
    let r := splitOnDot rest
    if c = '.' then [] :: r
    else
      match r with
      | h :: t => (c :: h) :: t
      | [] => [[c]]

/-- Python `float(s)` for a string over the alphabet `{0-9, .}` (the regex
groups are over `[\d,.]` and commas have been replaced by dots): succeeds iff
the string has at least one digit and at most one dot. -/
def pyFloatNum (l : List Char) : Option ℚ :=
  if (l.all fun c => c.isDigit || c = '.') && l.any Char.isDigit then
    match splitOnDot l with
    | [ip] => some (digitsToNat ip)
    | [ip, fp] =>
      some ((digitsToNat ip : ℚ) + (digitsToNat fp : ℚ) / (10 : ℚ) ^ fp.length)
    | _ => none
  else none

/-- The result of the Python expression `txn["amount"]["value"]` as consumed
by `float(...)`: either it parses to a number, or `float` raises
`ValueError`. -/
inductive NumField where
  | num (q : ℚ)
  | malformed
  deriving DecidableEq, Repr

/-- `StatementTransaction` (§3 of the spec): one raw bank-statement line.
`remittanceInfo = none` models an absent or non-string field
(`txn.get("remittanceInfo", "")` followed by the `isinstance(info, str)`
guard). -/
structure StatementTransaction where
  bookingDate : Option String
  amountValue : NumField
  remittanceInfo : Option String
  deriving DecidableEq, Repr

/-- `DividendRecord` (§3): one parsed dividend event. -/
structure DividendRecord where
  date : Option String
  amount : ℚ
  company : String
  wkn : Option String
  shares : Option ℚ
  div_per_share : Option ℚ
  deriving DecidableEq, Repr

/-! ### Metadata registry (`wkn_metadata_service.py`) -/

/-- The raw JSON object stored for one WKN in `wkn_metadata_lookup.json`.
`none` models an absent key (`data.get(..., default)` supplies defaults). -/
structure RawMeta where
  name : Option String
  ticker : Option String
  region : Option String
  asset_class : Option String
  sector : Option String
  risk_estimation : Option String
  region_breakdown : Option (List (String × ℚ))
  sector_breakdown : Option (List (String × ℚ))
  deriving DecidableEq, Repr

/-- The metadata lookup table (`WKNMetadataService._metadata_cache`). -/
abbrev MetaTable := List (String × RawMeta)

/-- `WKNMetadata` as constructed by `WKNMetadataService.get_metadata`,
with its `data.get` defaults applied. -/
structure WKNMetadata where
  name : String
  ticker : String
  region : String
  asset_class : String
  sector : String
  risk_estimation : String
  region_breakdown : Option (List (String × ℚ))
  sector_breakdown : Option (List (String × ℚ))
  deriving DecidableEq, Repr

/-- Field defaults of `get_metadata`. -/
def mkMetadata (raw : RawMeta) : WKNMetadata where
  name := raw.name.getD "Unknown"
  ticker := raw.ticker.getD "Unknown"
  region := raw.region.getD "Unknown"
  asset_class := raw.asset_class.getD "Unknown"
  sector := raw.sector.getD "Unknown"
  risk_estimation := raw.risk_estimation.getD "medium"
  region_breakdown := raw.region_breakdown
  sector_breakdown := raw.sector_breakdown

/-- `WKNMetadataService.get_metadata`: table hit builds the defaulted record,
a miss logs and returns `None`. -/
def getMetadata (t : MetaTable) (wkn : String) : Option WKNMetadata :=
  (alookup wkn t).map mkMetadata

/-- `WKNMetadataService.get_name`: name of the security, `"Unknown"` on a
miss. -/
def getName (t : MetaTable) (wkn : String) : String :=
  match getMetadata t wkn with
  | some md => md.name
  | none => "Unknown"

/-- `WKNMetadata.is_etf`: `self.asset_class.upper() == "ETF"`. -/
def WKNMetadata.isEtf (md : WKNMetadata) : Bool :=
  pyUpper md.asset_class = "ETF"

/-- `WKNMetadata.has_region_breakdown`. -/
def WKNMetadata.hasRegionBd (md : WKNMetadata) : Bool :=
  match md.region_breakdown with
  | some l => !l.isEmpty
  | none => false

/-- `WKNMetadata.has_sector_breakdown`. -/
def WKNMetadata.hasSectorBd (md : WKNMetadata) : Bool :=
  match md.sector_breakdown with
  | some l => !l.isEmpty
  | none => false

/-! ### The extraction loop -/

/-- The only exception the statement loop itself can raise: `ValueError`
from an unguarded `float(...)` call. -/
inductive ParseError where
  | valueError
  deriving DecidableEq, Repr

/-- The dividend marker token looked up in the upper-cased remittance text. -/
def markerTok : String := "ERTRAEGNISGUTSCHRIFT"

/-- `float(txn["amount"]["value"])` — unguarded, so failure is an exception,
not a skip. -/
def parseFloatField : NumField → Except ParseError ℚ
  | .num q => .ok q
  | .malformed => .error .valueError

/-- `float(g.replace(",", "."))` on a regex group over `[\d,.]` — also
unguarded. -/
def floatOfNumStr (g : List Char) : Except ParseError ℚ :=
  match pyFloatNum (g.map fun c => if c = ',' then '.' else c) with
  | some q => .ok q
  | none => .error .valueError

/-- Processing of a single transaction inside the extraction loop of
`_extract_dividends_from_statements`: `ok none` means the transaction was
filtered out (no marker / non-string info), `ok (some r)` is the built entry,
`error` models a `ValueError` escaping the loop. -/
def processTxn (t : MetaTable) (txn : StatementTransaction) :
    Except ParseError (Option DividendRecord) :=
  match txn.remittanceInfo with
  | none => .ok none
  | some info =>
    if !strContains (pyUpper info) markerTok then .ok none
    else
      match parseFloatField txn.amountValue with
      | .error e => .error e
      | .ok amount =>
        let wkn := (scanWkn (pyUpper info).toList).map String.mk
        let company := match wkn with
          | some w => getName t w
          | none => "Unknown"
        let sharesE : Except ParseError (Option ℚ) :=
          match scanTagNum "02DEPOTBESTAND:".toList info.toList with
          | some g => (floatOfNumStr g).map some
          | none => .ok none
        match sharesE with
        | .error e => .error e
        | .ok shares =>
          let dpsE : Except ParseError (Option ℚ) :=
            match scanDiv info.toList with
            | some g => (floatOfNumStr g).map some
            | none => .ok none
          match dpsE with
          | .error e => .error e
          | .ok dps =>
            .ok (some { date := txn.bookingDate, amount := amount,
                        company := company, wkn := wkn, shares := shares,
                        div_per_share := dps })

/-- The composite identity key `(date, amount, company)`. -/
abbrev DivKey := Option String × ℚ × String

/-- Key of one record. -/
def keyOf (r : DividendRecord) : DivKey := (r.date, r.amount, r.company)

/-- Keys of a whole ledger (the `existing_set`, kept as a list). -/
def ledgerKeys (l : List DividendRecord) : List DivKey := l.map keyOf

/-- The extraction loop: `ks` is the (fixed!) `existing_set` computed before
the loop; the result is `new_dividends` in input order.  An exception from
any transaction aborts the whole batch, exactly as in the source. -/
def extractNew (t : MetaTable) (ks : List DivKey) :
    List StatementTransaction → Except ParseError (List DividendRecord)
  | [] => .ok []
  | txn :: rest =>
    match processTxn t txn with
    | .error e => .error e
    | .ok none => extractNew t ks rest
    | .ok (some r) =>
      match extractNew t ks rest with
      | .error e => .error e
      | .ok tail => if keyOf r ∈ ks then .ok tail else .ok (r :: tail)

/-- One parse-and-persist run of `_extract_dividends_from_statements`:
returns the ledger contents after the run (`existing + new_dividends`; when
no new records are staged nothing is written and the stored ledger equals
`existing`, which coincides with `existing ++ []`). -/
def runLedger (t : MetaTable) (existing : List DividendRecord)
    (stmts : List StatementTransaction) : Except ParseError (List DividendRecord) :=
  (extractNew t (ledgerKeys existing) stmts).map (fun nw => existing ++ nw)


/-- Equality of `Except` results is decidable (needed to evaluate concrete
runs of the embedded code). -/
instance exceptDecEq {ε α : Type} [DecidableEq ε] [DecidableEq α] :
    DecidableEq (Except ε α) := fun x y =>
  match x, y with
  | .ok a, .ok b =>
    if h : a = b then .isTrue (by rw [h])
    else .isFalse (by intro hc; cases hc; exact h rfl)
  | .error e, .error f =>
    if h : e = f then .isTrue (by rw [h])
    else .isFalse (by intro hc; cases hc; exact h rfl)
  | .ok _, .error _ => .isFalse (by intro hc; cases hc)
  | .error _, .ok _ => .isFalse (by intro hc; cases hc)

/-! ### Concrete statement data used in counterexamples and witnesses -/

/-- A well-formed dividend statement transaction (the §8 scenario of the
spec). -/
def txEx : StatementTransaction where
  bookingDate := some "2024-03-01"
  amountValue := .num (617/50)
  remittanceInfo := some "ERTRAEGNISGUTSCHRIFT 04A1B2C3 EUR12,34"

/-- The record the parser builds from `txEx` over an empty metadata table. -/
def recEx : DividendRecord where
  date := some "2024-03-01"
  amount := 617/50
  company := "Unknown"
  wkn := some "A1B2C3"
  shares := none
  div_per_share := some (617/50)

/-- A dividend-marked transaction whose amount field does not parse as a
number, so `float(txn["amount"]["value"])` raises `ValueError`. -/
def txBad : StatementTransaction where
  bookingDate := some "2024-03-02"
  amountValue := .malformed
  remittanceInfo := some "ERTRAEGNISGUTSCHRIFT 04B0B0B0 EUR5"

/-- A second well-formed dividend transaction with a fresh booking date. -/
def txEx2 : StatementTransaction where
  bookingDate := some "2024-06-01"
  amountValue := .num 7
  remittanceInfo := some "ERTRAEGNISGUTSCHRIFT 04A1B2C3 EUR7"

/-- The record parsed from `txEx2` over the empty metadata table. -/
def recEx2 : DividendRecord where
  date := some "2024-06-01"
  amount := 7
  company := "Unknown"
  wkn := some "A1B2C3"
  shares := none
  div_per_share := some 7

/-! ### Position enrichment (`DepotService._process_positions`) -/

/-- numpy/pandas rounding of a rational to an integer:
round-half-to-even ("banker's rounding"). -/
def roundHalfEven (q : ℚ) : ℤ :=
  if Int.fract q < 1/2 then ⌊q⌋
  else if 1/2 < Int.fract q then ⌊q⌋ + 1
  else if ⌊q⌋ % 2 = 0 then ⌊q⌋ else ⌊q⌋ + 1

/-- `round(x, 2)` as pandas applies it cell-wise to a Series. -/
def round2 (q : ℚ) : ℚ := (roundHalfEven (q * 100) : ℚ) / 100

/-- One raw position row as `_process_positions` reads it. -/
structure PositionRow where
  current_value : ℚ
  purchase_value : ℚ
  deriving DecidableEq, Repr

/-- One enriched position row as `_process_positions` returns it.
`percentage_in_depot = none` models the column not being created because the
`total_current_value > 0` guard failed. -/
structure EnrichedRow where
  current_value : ℚ
  purchase_value : ℚ
  absolute_gain_loss : ℚ
  performance_pct : ℚ
  percentage_in_depot : Option ℚ
  deriving DecidableEq, Repr

/-- `DepotService._process_positions` on a frame that has the
`current_value` and `purchase_value` columns (the early return for the empty
frame coincides with mapping over the empty list).  The zero divisor of
`performance_%` is replaced by 1 (`.replace(0, 1)`), and
`percentage_in_depot` is added only when the total is positive. -/
def processPositions (rows : List PositionRow) : List EnrichedRow :=
  let total := (rows.map PositionRow.current_value).sum
  rows.map fun p =>
    let denom : ℚ := if p.purchase_value = 0 then 1 else p.purchase_value
    { current_value := p.current_value
      purchase_value := p.purchase_value
      absolute_gain_loss := round2 (p.current_value - p.purchase_value)
      performance_pct := round2 ((p.current_value - p.purchase_value) / denom * 100)
      percentage_in_depot :=
        if 0 < total then some (round2 (p.current_value / total * 100))
        else none }

/-- Concrete rows used by the `C8` witness. -/
def rowsEx : List PositionRow :=
  [PositionRow.mk 30 10, PositionRow.mk 70 50]

/-! ### Price & momentum enrichment (`src/utils/yfinance_support.py`) -/

/-- A calendar date (year, month 1–12, day) as it indexes a yfinance
history. -/
structure SDate where
  y : ℕ
  m : ℕ
  d : ℕ
  deriving DecidableEq, Repr

/-- Chronological (lexicographic) date comparison. -/
def SDate.leB (a b : SDate) : Bool :=
  a.y < b.y || (a.y = b.y && (a.m < b.m || (a.m = b.m && a.d ≤ b.d)))

/-- Gregorian leap year. -/
def isLeapYear (y : ℕ) : Bool := (y % 4 = 0 && y % 100 ≠ 0) || y % 400 = 0

/-- Number of days of a month. -/
def daysInMonth (y m : ℕ) : ℕ :=
  if m = 2 then (if isLeapYear y then 29 else 28)
  else if m = 4 || m = 6 || m = 9 || m = 11 then 30
  else 31

/-- `timestamp - pd.DateOffset(months=3)`: go back three months, clamping
the day to the length of the target month. -/
def subMonths3 (dt : SDate) : SDate :=
  let ym : ℕ × ℕ := if 3 < dt.m then (dt.y, dt.m - 3) else (dt.y - 1, dt.m + 9)
  ⟨ym.1, ym.2, min dt.d (daysInMonth ym.1 ym.2)⟩

/-- `Series.dropna()` on a Close series; `none` models `NaN`. -/
def dropna (hist : List (SDate × Option ℚ)) : List (SDate × ℚ) :=
  hist.filterMap (fun p => p.2.map (fun v => (p.1, v)))

/-- Core of `_momentum_3m_native` after `dropna`: take the last close,
cut the (date-sorted) series at `last_date - 3 months` (`s.loc[:target]` is
`takeWhile` on a monotone index), use the last close at or before the cut as
base, else fall back to `iloc[-63]` when strictly more than 63 closes exist;
a zero base (the `pd.isna` checks are vacuous after `dropna`) yields `None`,
otherwise the momentum is `last / base - 1`. -/
def momentumOfCleaned (s : List (SDate × ℚ)) : Option ℚ :=
  match s.getLast? with
  | none => none
  | some lastP =>
    let target := subMonths3 lastP.1
    let sBefore := s.takeWhile (fun p => SDate.leB p.1 target)
    let base? : Option ℚ :=
      match sBefore.getLast? with
      | some bp => some bp.2
      | none =>
        if s.length ≤ 63 then none
        else (s.get? (s.length - 63)).map Prod.snd
    match base? with
    | none => none
    | some base => if base = 0 then none else some (lastP.2 / base - 1)

/-- `_momentum_3m_native` on the raw 9-month history of native-currency
closes.  An empty frame — which also covers a missing `Close` column and a
provider exception, both collapsed into the empty history — gives `None`. -/
def momentum3mNative (hist : List (SDate × Option ℚ)) : Option ℚ :=
  if hist.isEmpty then none else momentumOfCleaned (dropna hist)

/-- Applying an FX multiplier to every close of a raw history (the scaling
whose effect on momentum C7 asks about). -/
def scaleHist (c : ℚ) (hist : List (SDate × Option ℚ)) : List (SDate × Option ℚ) :=
  hist.map (fun p => (p.1, p.2.map (fun v => v * c)))

/-- Concrete native-close history used by the C7 witness. -/
def histEx : List (SDate × Option ℚ) :=
  [(⟨2024, 1, 2⟩, some 100), (⟨2024, 2, 1⟩, none), (⟨2024, 4, 10⟩, some 120)]

/-! ### Price update run (`update_prices_from_yf`, `wkn_to_ticker_lookup`,
`fx_to_eur_multiplier`) -/

/-- A float-typed provider field: `missing` covers `None` and a raising
access (each attempt is wrapped in its own `try/except` that falls
through), `nan` a `NaN` float, `val` a number. -/
inductive FVal where
  | missing
  | nan
  | val (q : ℚ)
  deriving DecidableEq, Repr

/-- The provider data behind one `yf.Ticker`, as consulted by
`_safe_last_price`, `_ticker_currency` and `_momentum_3m_native`.
`histClose1d` is the already-`dropna`d Close column of the 1-day history
(an `IndexError` on an empty column is caught and falls through, exactly
like an empty list). -/
structure TickerInfo where
  fastLast : FVal
  infoRegular : FVal
  histClose1d : List ℚ
  fastCurrency : Option String
  infoCurrency : Option String
  hist9m : List (SDate × Option ℚ)

/-- The run environment: the `wkn_ticker_cache.json` contents (a stored
value may be JSON `null` or `""`), the per-ticker provider data, and the
FX quote resolution per pair symbol.  `fxPrice pair` is the value of the
local `price` variable after the `fast_info`-then-1d-history attempt:
`none` models no data or a provider exception (a `NaN` quote behaves like a
non-positive one and is subsumed by the `0 < p` guard). -/
structure Env where
  tickerCache : List (String × Option String)
  info : String → TickerInfo
  fxPrice : String → Option ℚ

/-- `_safe_last_price`: fast-info last price, else `regularMarketPrice`,
else the last 1-day close; `None` when all three fail. -/
def safeLastPrice (t : TickerInfo) : Option ℚ :=
  match t.fastLast with
  | .val q => some q
  | _ =>
    match t.infoRegular with
    | .val q => some q
    | _ => t.histClose1d.getLast?

/-- Python truthiness of an optional string (`if cur:` / `if not ticker:`). -/
def pyTruthyS : Option String → Bool
  | none => false
  | some v => v ≠ ""

/-- `_ticker_currency`: fast-info currency, else info currency, else
`"EUR"`. -/
def tickerCurrency (t : TickerInfo) : String :=
  if pyTruthyS t.fastCurrency then t.fastCurrency.getD "EUR"
  else if pyTruthyS t.infoCurrency then t.infoCurrency.getD "EUR"
  else "EUR"

/-- The per-run FX cache `fx_cache` (currency → EUR multiplier). -/
abbrev FxCache := List (String × ℚ)

/-- `(from_currency or "EUR").upper()`. -/
def normCur (cur0 : String) : String :=
  if cur0 = "" then "EUR" else pyUpper cur0

/-- Cache-free value of the second FX attempt (`CUREUR=X`): the quote
itself when positive, else the degraded multiplier `1.0`. -/
def fxMultSecondPure (env : Env) (cur : String) : ℚ :=
  match env.fxPrice (cur ++ "EUR=X") with
  | some p => if 0 < p then p else 1
  | none => 1

/-- Cache-free multiplier resolution for a normalized currency: what
`fx_to_eur_multiplier` computes on a cache miss. -/
def fxMultNormed (env : Env) (cur : String) : ℚ :=
  if cur = "EUR" then 1
  else
    match env.fxPrice ("EUR" ++ cur ++ "=X") with
    | some p => if 0 < p then 1 / p else fxMultSecondPure env cur
    | none => fxMultSecondPure env cur

/-- Cache-free multiplier for a raw currency string. -/
def fxMultOf (env : Env) (cur0 : String) : ℚ := fxMultNormed env (normCur cur0)

/-- The log lines the run can emit.  (The "No Price in EUR" branch of the
source is guarded by an `isnan`/`isinf` test that cannot fire over `ℚ` and
is therefore unreachable here.) -/
inductive LogMsg where
  | noTicker (wkn : String)
  | fxWarn (cur : String)
  | noPrice (wkn : String)
  | noMomentum (wkn : String)
  deriving DecidableEq, Repr

/-- The exception `update_prices_from_yf` can leak. -/
inductive PyError where
  | keyError (k : String)
  deriving DecidableEq, Repr

/-- `wkn_to_ticker_lookup`: a cache hit returns the stored value (which may
be JSON `null` or empty); on a miss the function prints the curation hint,
rewrites the cache file unchanged, and then evaluates `cache[wkn]` — which
raises `KeyError`. -/
def wknToTickerLookup (cache : List (String × Option String)) (wkn : String) :
    Except PyError (Option String) :=
  match alookup wkn cache with
  | some v => .ok v
  | none => .error (.keyError wkn)

/-- The state threaded through the position loop of
`update_prices_from_yf`: the two result maps, the FX cache, the log. -/
structure UpdState where
  priceMap : List (String × ℚ)
  momMap : List (String × ℚ)
  fx : FxCache
  logs : List LogMsg
  deriving DecidableEq, Repr

/-- Second FX attempt (`CUREUR=X`) of `fx_to_eur_multiplier`, with cache
write and the single degradation warning. -/
def fxSecond (env : Env) (cache : FxCache) (cur : String) :
    ℚ × FxCache × List LogMsg :=
  match env.fxPrice (cur ++ "EUR=X") with
  | some p =>
    if 0 < p then (p, (cur, p) :: cache, [])
    else (1, (cur, 1) :: cache, [.fxWarn cur])
  | none => (1, (cur, 1) :: cache, [.fxWarn cur])

/-- `fx_to_eur_multiplier`: cached value, else `EURCUR=X` inverted, else
`CUREUR=X`, else multiplier `1.0` plus one warning; every computed
multiplier is cached. -/
def fxToEurMultiplier (env : Env) (cache : FxCache) (cur0 : String) :
    ℚ × FxCache × List LogMsg :=
  let cur := normCur cur0
  match alookup cur cache with
  | some m => (m, cache, [])
  | none =>
    if cur = "EUR" then (1, (cur, 1) :: cache, [])
    else
      match env.fxPrice ("EUR" ++ cur ++ "=X") with
      | some p =>
        if 0 < p then (1 / p, (cur, 1 / p) :: cache, [])
        else fxSecond env cache cur
      | none => fxSecond env cache cur

/-- One iteration of the position loop of `update_prices_from_yf`:
resolve the ticker (a cache miss raises), skip falsy tickers with a log,
otherwise fill the price map (native price times FX multiplier; the
`isnan`/`isinf` guard cannot fire over `ℚ`) and the momentum map, each
branch logging its own failure. -/
def stepWkn (env : Env) (st : UpdState) (wkn : String) : Except PyError UpdState :=
  match wknToTickerLookup env.tickerCache wkn with
  | .error e => .error e
  | .ok tv =>
    if pyTruthyS tv = false then
      .ok { st with logs := st.logs ++ [.noTicker wkn] }
    else
      let ti := env.info (tv.getD "")
      let st1 : UpdState :=
        match safeLastPrice ti with
        | some pn =>
          let fxr := fxToEurMultiplier env st.fx (tickerCurrency ti)
          { st with priceMap := (wkn, pn * fxr.1) :: st.priceMap,
                    fx := fxr.2.1, logs := st.logs ++ fxr.2.2 }
        | none => { st with logs := st.logs ++ [LogMsg.noPrice wkn] }
      match momentum3mNative ti.hist9m with
      | some m => .ok { st1 with momMap := (wkn, m) :: st1.momMap }
      | none => .ok { st1 with logs := st1.logs ++ [.noMomentum wkn] }

/-- A position row as `update_prices_from_yf` sees it: the WKN key, the
prior `current_price` (possibly `NaN` = `none`) and the prior
`momentum_3m` column (absent before the first run). -/
structure Position where
  wkn : String
  current_price : Option ℚ
  momentum_3m : Option ℚ
  deriving DecidableEq, Repr

/-- The loop starts with empty maps, the seeded FX cache
`{"EUR": 1.0}` and an empty log. -/
def initState : UpdState := ⟨[], [], [("EUR", 1)], []⟩

/-- The column writes after the loop:
`df_out["current_price"] = wkn.map(price_map).combine_first(current_price)`
guarded by `if price_eur_map:`, and
`df_out["momentum_3m"] = wkn.map(mom3m_map)` (unconditional — misses become
`NaN`, the prior column is discarded). -/
def applyMaps (priceMap momMap : List (String × ℚ)) (p : Position) : Position :=
  { p with
    current_price :=
      if priceMap.isEmpty then p.current_price
      else
        match alookup p.wkn priceMap with
        | some q => some q
        | none => p.current_price,
    momentum_3m := alookup p.wkn momMap }

/-- The `for wkn in df["wkn"].astype(str)` loop. -/
def runWkns (env : Env) (st : UpdState) : List String → Except PyError UpdState
  | [] => .ok st
  | w :: ws =>
    match stepWkn env st w with
    | .error e => .error e
    | .ok st1 => runWkns env st1 ws

/-- `update_prices_from_yf`: run the loop over the WKN column, then apply
the maps; the result also carries the emitted log.  An uncaught `KeyError`
from the ticker lookup aborts the whole run. -/
def updatePricesFromYf (env : Env) (df : List Position) :
    Except PyError (List Position × List LogMsg) :=
  match runWkns env initState (df.map Position.wkn) with
  | .error e => .error e
  | .ok st => .ok (df.map (applyMaps st.priceMap st.momMap), st.logs)

/-! ### The two per-field pipelines, used to state C6 -/

/-- The ticker a WKN resolves to when the loop does not skip it (`none` for
a falsy cache entry; on a cache miss the run aborts before this value
matters). -/
def resolveTicker (env : Env) (wkn : String) : Option String :=
  match alookup wkn env.tickerCache with
  | some tv => if pyTruthyS tv then some (tv.getD "") else none
  | none => none

/-- The price pipeline alone: native price times the (cache-free) FX
multiplier; `none` when the ticker or the native price fails to resolve.
It never consults momentum data. -/
def perWknPriceEur (env : Env) (wkn : String) : Option ℚ :=
  match resolveTicker env wkn with
  | none => none
  | some tk =>
    match safeLastPrice (env.info tk) with
    | none => none
    | some pn => some (pn * fxMultOf env (tickerCurrency (env.info tk)))

/-- The momentum pipeline alone; it never consults price data. -/
def perWknMom (env : Env) (wkn : String) : Option ℚ :=
  match resolveTicker env wkn with
  | none => none
  | some tk => momentum3mNative ((env.info tk).hist9m)

/-- Field-wise update of one position: `current_price` falls back to the
prior value when its pipeline fails, `momentum_3m` is whatever its pipeline
yields (unavailable = `none`, the prior value is not retained). -/
def fieldwiseUpdate (env : Env) (p : Position) : Position :=
  { p with
    current_price :=
      match perWknPriceEur env p.wkn with
      | some q => some q
      | none => p.current_price,
    momentum_3m := perWknMom env p.wkn }

/-- The FX cache only ever stores the (deterministic) cache-free multiplier
of its normalized key. -/
def CacheOK (env : Env) (cache : FxCache) : Prop :=
  ∀ cur m, alookup cur cache = some m → m = fxMultNormed env cur

/-- Loop invariant: the cache is consistent and each map holds exactly the
per-WKN pipeline results of the WKNs seen so far. -/
def MapsInv (env : Env) (st : UpdState) (seen : List String) : Prop :=
  CacheOK env st.fx ∧
  (∀ w, alookup w st.priceMap =
    if w ∈ seen then perWknPriceEur env w else none) ∧
  (∀ w, alookup w st.momMap =
    if w ∈ seen then perWknMom env w else none)

/-! ### Concrete environments for the C4–C6 counterexamples and witnesses -/

/-- A provider with no data at all. -/
def tiDefault : TickerInfo := ⟨.missing, .missing, [], none, none, []⟩

/-- Ticker cache with one curated-but-null entry; provider with no data. -/
def envC4 : Env := ⟨[("ABCDEF", none)], fun _ => tiDefault, fun _ => none⟩

/-- A position whose WKN is absent from the ticker cache. -/
def posC4 : Position := ⟨"XYZ123", some 100, none⟩

/-- A position whose WKN maps to `null` in the ticker cache. -/
def posC4b : Position := ⟨"ABCDEF", some 100, none⟩

/-- A USD instrument with native price 50 and no momentum history. -/
def tiC5 : TickerInfo := ⟨.val 50, .missing, [], some "USD", none, []⟩

/-- Environment whose FX provider yields nothing at all. -/
def envC5 : Env := ⟨[("W1", some "AAPL")], fun _ => tiC5, fun _ => none⟩

/-- A position with prior price 100. -/
def posC5 : Position := ⟨"W1", some 100, none⟩

/-- A EUR instrument with native price 50 and no momentum history. -/
def tiC6 : TickerInfo := ⟨.val 50, .missing, [], some "EUR", none, []⟩

/-- Environment for the C6 counterexample. -/
def envC6 : Env := ⟨[("W1", some "TT")], fun _ => tiC6, fun _ => none⟩

/-- A position with a prior momentum value from an earlier run. -/
def posC6 : Position := ⟨"W1", some 100, some (1/20)⟩

/-! ### Allocation distributor (`DataManager._add_allocation_columns`) -/

/-- `s.lower().replace(" ", "_").replace("-", "_")` as the per-character
substitution it amounts to (both replaced patterns are single characters,
and `lower` maps space and dash to themselves). -/
def normChar (c : Char) : Char :=
  let lc := c.toLower
  if lc = ' ' || lc = '-' then '_' else lc

/-- The bucket-name normalization of the source. -/
def normName (s : String) : String := String.mk (s.toList.map normChar)

/-- `f"region_{...}_value"`. -/
def colNameR (r : String) : String := "region_" ++ normName r ++ "_value"

/-- `f"sector_{...}_value"`. -/
def colNameS (r : String) : String := "sector_" ++ normName r ++ "_value"

/-- Python `bool(s.strip())`: some character is not whitespace. -/
def pyStripNonempty (s : String) : Bool := s.toList.any (fun c => !isPySpace c)

/-- Python truthiness of `x and x.strip()` for a string `x`. -/
def pyTruthyStrip (r : String) : Bool := r ≠ "" && pyStripNonempty r

/-- `get_all_regions` / `get_all_sectors`, parameterized by the two field
selectors: single values that are set (default `""` on a missing key) plus
every breakdown key.  The source returns a set; only membership is used
downstream, so duplicates in this list are harmless. -/
def allBuckets (single : RawMeta → Option String)
    (bdf : RawMeta → Option (List (String × ℚ))) (t : MetaTable) : List String :=
  t.foldr (fun pr acc =>
    (if pyTruthyStrip ((single pr.2).getD "") then [(single pr.2).getD ""] else []) ++
    ((bdf pr.2).getD []).map Prod.fst ++ acc) []

/-- `WKNMetadataService.get_all_regions`. -/
def allRegions (t : MetaTable) : List String :=
  allBuckets RawMeta.region RawMeta.region_breakdown t

/-- `WKNMetadataService.get_all_sectors`. -/
def allSectors (t : MetaTable) : List String :=
  allBuckets RawMeta.sector RawMeta.sector_breakdown t

/-- The region allocation columns created (and zero-initialised) by
`_add_allocation_columns`. -/
def regionCols (t : MetaTable) : List String := (allRegions t).map colNameR

/-- The sector allocation columns. -/
def sectorCols (t : MetaTable) : List String := (allSectors t).map colNameS

/-- Sequential `df.loc[idx, col] = v` writes guarded by
`if col_name in df.columns`, over the all-zero initialised allocation row.
(Original frame columns never have the `region_*_value` / `sector_*_value`
shape, so membership in the declared allocation columns is the whole
check.) -/
def writeCells (cols : List String) (ws : List (String × ℚ)) : String → ℚ :=
  ws.foldl (fun f cw =>
    if cw.1 ∈ cols then (fun c => if c = cw.1 then cw.2 else f c) else f)
    (fun _ => 0)

/-- The region block of the per-position loop: ETF-with-breakdown
distributes `current_value * weight` per entry, else a truthy single
region gets the whole value, else nothing. -/
def regionWrites (md : WKNMetadata) (v : ℚ) : List (String × ℚ) :=
  if md.isEtf && md.hasRegionBd then
    (md.region_breakdown.getD []).map (fun rw => (colNameR rw.1, v * rw.2))
  else if pyTruthyStrip md.region then [(colNameR md.region, v)]
  else []

/-- The sector block, identical up to selectors and prefix. -/
def sectorWrites (md : WKNMetadata) (v : ℚ) : List (String × ℚ) :=
  if md.isEtf && md.hasSectorBd then
    (md.sector_breakdown.getD []).map (fun rw => (colNameS rw.1, v * rw.2))
  else if pyTruthyStrip md.sector then [(colNameS md.sector, v)]
  else []

/-- One dimension of `_add_allocation_columns` for one position row:
skip on `NaN` or non-positive `current_value`, skip on a metadata miss,
otherwise perform the dimension's writes on the zero-initialised row. -/
def allocRowDim (t : MetaTable) (cols : List String)
    (writesOf : WKNMetadata → ℚ → List (String × ℚ))
    (cv : Option ℚ) (wkn : String) : String → ℚ :=
  match cv with
  | none => fun _ => 0
  | some v =>
    if v ≤ 0 then fun _ => 0
    else
      match getMetadata t wkn with
      | none => fun _ => 0
      | some md => writeCells cols (writesOf md v)

/-- The region allocation cells of one position row. -/
def regionCellsOfRow (t : MetaTable) (cv : Option ℚ) (wkn : String) :
    String → ℚ :=
  allocRowDim t (regionCols t) regionWrites cv wkn

/-- The sector allocation cells of one position row. -/
def sectorCellsOfRow (t : MetaTable) (cv : Option ℚ) (wkn : String) :
    String → ℚ :=
  allocRowDim t (sectorCols t) sectorWrites cv wkn

/-- An ETF metadata entry with a region breakdown (C9/C10 witnesses). -/
def rawEtf : RawMeta where
  name := some "World ETF"
  ticker := some "WRLD"
  region := none
  asset_class := some "ETF"
  sector := none
  risk_estimation := some "low"
  region_breakdown := some [("US", 3/5), ("EU", 2/5)]
  sector_breakdown := none

/-- A plain stock metadata entry with single region and sector. -/
def rawStock : RawMeta where
  name := some "Carco"
  ticker := some "CAR"
  region := some "EU"
  asset_class := some "Stock"
  sector := some "Automotive"
  risk_estimation := some "medium"
  region_breakdown := none
  sector_breakdown := none

/-- Metadata table for the C9/C10 witnesses. -/
def tableEx : MetaTable := [("ETF001", rawEtf), ("STK001", rawStock)]

/-- A metadata entry with no region key, no sector key and no breakdowns:
`get_metadata` defaults its region and sector to the truthy `"Unknown"`. -/
def rawNoRegion : RawMeta where
  name := some "Mystery Corp"
  ticker := some "MYS"
  region := none
  asset_class := some "Stock"
  sector := none
  risk_estimation := none
  region_breakdown := none
  sector_breakdown := none

/-- A metadata entry that declares the literal region `"Unknown"`, so the
`region_unknown_value` column exists. -/
def rawUnknownDecl : RawMeta where
  name := some "Oddity AG"
  ticker := some "ODD"
  region := some "Unknown"
  asset_class := some "Stock"
  sector := none
  risk_estimation := none
  region_breakdown := none
  sector_breakdown := none

/-- Table for the C9 counterexample: a region-less position next to an
entry that declares the `"Unknown"` region bucket. -/
def tableC9 : MetaTable := [("AAA111", rawNoRegion), ("BBB222", rawUnknownDecl)]

/-! ## Theorems: statement parser and dividend ledger (C1, C2, C3) -/

/-- Unfolding equation: a raising transaction aborts the batch. -/
theorem extractNew_cons_error (t : MetaTable) (ks : List DivKey)
    (txn : StatementTransaction) (rest : List StatementTransaction)
    (e : ParseError) (hp : processTxn t txn = .error e) :
    extractNew t ks (txn :: rest) = .error e := by
  simp [extractNew, hp]

/-- Unfolding equation: a filtered-out transaction is skipped. -/
theorem extractNew_cons_skip (t : MetaTable) (ks : List DivKey)
    (txn : StatementTransaction) (rest : List StatementTransaction)
    (hp : processTxn t txn = .ok none) :
    extractNew t ks (txn :: rest) = extractNew t ks rest := by
  simp [extractNew, hp]

/-- Unfolding equation: an error later in the batch also aborts it. -/
theorem extractNew_cons_rec_error (t : MetaTable) (ks : List DivKey)
    (txn : StatementTransaction) (rest : List StatementTransaction)
    (r : DividendRecord) (e : ParseError)
    (hp : processTxn t txn = .ok (some r))
    (ht : extractNew t ks rest = .error e) :
    extractNew t ks (txn :: rest) = .error e := by
  simp [extractNew, hp, ht]

/-- Unfolding equation: a parsed record is staged iff its key is outside the
pre-run `existing_set`. -/
theorem extractNew_cons_rec (t : MetaTable) (ks : List DivKey)
    (txn : StatementTransaction) (rest : List StatementTransaction)
    (r : DividendRecord) (tail : List DividendRecord)
    (hp : processTxn t txn = .ok (some r))
    (ht : extractNew t ks rest = .ok tail) :
    extractNew t ks (txn :: rest) =
      if keyOf r ∈ ks then .ok tail else .ok (r :: tail) := by
  simp [extractNew, hp, ht]

/-- Every record staged by the extraction loop has a key outside the
pre-computed `existing_set`.  (The set is never extended during the loop.) -/
theorem extractNew_keys_fresh (t : MetaTable) (ks : List DivKey) :
    ∀ (stmts : List StatementTransaction) (nw : List DividendRecord),
      extractNew t ks stmts = .ok nw → ∀ r ∈ nw, keyOf r ∉ ks := by
  intro stmts
  induction stmts with
  | nil =>
    intro nw h r hr
    simp only [extractNew] at h
    cases h
    simp at hr
  | cons txn rest ih =>
    intro nw h r hr
    cases hp : processTxn t txn with
    | error e =>
      rw [extractNew_cons_error t ks txn rest e hp] at h
      exact Except.noConfusion h
    | ok r? =>
      cases r? with
      | none =>
        rw [extractNew_cons_skip t ks txn rest hp] at h
        exact ih nw h r hr
      | some r0 =>
        cases htail : extractNew t ks rest with
        | error e =>
          rw [extractNew_cons_rec_error t ks txn rest r0 e hp htail] at h
          exact Except.noConfusion h
        | ok tail =>
          rw [extractNew_cons_rec t ks txn rest r0 tail hp htail] at h
          by_cases hk : keyOf r0 ∈ ks
          · rw [if_pos hk] at h
            injection h with h2
            subst h2
            exact ih _ htail r hr
          · rw [if_neg hk] at h
            injection h with h2
            subst h2
            rcases List.mem_cons.mp hr with hEq | hMem
            · subst hEq; exact hk
            · exact ih _ htail r hMem

/-- C1 — counterexample.  Starting from the empty (hence duplicate-free)
ledger, a single batch containing the same dividend transaction twice stages
both copies: the `existing_set` membership test is evaluated against the
pre-run ledger only, so the persisted ledger contains two `DividendRecord`s
with the identical `(date, amount, company)` triple. -/
theorem C1_counterexample_batch_duplicate :
    runLedger [] [] [txEx, txEx] = .ok [recEx, recEx] ∧
    ¬ (ledgerKeys [recEx, recEx]).Nodup := by
  constructor
  · with_unfolding_all decide
  · with_unfolding_all decide

/-- C1 (amended): no record staged by a parse-and-persist run shares its
`(date, amount, company)` triple with any record already in the ledger
before that run; only two records staged within the same input batch can
share a triple, because the in-batch case is not deduplicated. -/
theorem C1_no_cross_run_duplicate (t : MetaTable) (existing : List DividendRecord)
    (stmts : List StatementTransaction) (nw : List DividendRecord)
    (h : extractNew t (ledgerKeys existing) stmts = .ok nw) :
    ∀ r ∈ nw, keyOf r ∉ ledgerKeys existing :=
  extractNew_keys_fresh t (ledgerKeys existing) stmts nw h

theorem C1_no_cross_run_duplicate_witness :
    extractNew [] (ledgerKeys [recEx]) [txEx2] = .ok [recEx2] ∧
    keyOf recEx2 ∉ ledgerKeys [recEx] :=
  ⟨by with_unfolding_all decide,
   C1_no_cross_run_duplicate [] [recEx] [txEx2] [recEx2]
     (by with_unfolding_all decide) recEx2 (by simp)⟩

/-- If a run over key set `ks` staged exactly `nw`, then a run over any key
set containing both `ks` and the keys of `nw` stages nothing. -/
theorem extractNew_superset_empty (t : MetaTable) :
    ∀ (stmts : List StatementTransaction) (ks ks2 : List DivKey)
      (nw : List DividendRecord),
      extractNew t ks stmts = .ok nw →
      (∀ k ∈ ks, k ∈ ks2) → (∀ r ∈ nw, keyOf r ∈ ks2) →
      extractNew t ks2 stmts = .ok [] := by
  intro stmts
  induction stmts with
  | nil => intro ks ks2 nw _ _ _; simp [extractNew]
  | cons txn rest ih =>
    intro ks ks2 nw h hks hnw
    cases hp : processTxn t txn with
    | error e =>
      rw [extractNew_cons_error t ks txn rest e hp] at h
      exact Except.noConfusion h
    | ok r? =>
      cases r? with
      | none =>
        rw [extractNew_cons_skip t ks txn rest hp] at h
        rw [extractNew_cons_skip t ks2 txn rest hp]
        exact ih ks ks2 nw h hks hnw
      | some r0 =>
        cases htail : extractNew t ks rest with
        | error e =>
          rw [extractNew_cons_rec_error t ks txn rest r0 e hp htail] at h
          exact Except.noConfusion h
        | ok tail =>
          rw [extractNew_cons_rec t ks txn rest r0 tail hp htail] at h
          by_cases hk : keyOf r0 ∈ ks
          · rw [if_pos hk] at h
            injection h with h2
            subst h2
            have htail2 := ih ks ks2 _ htail hks hnw
            rw [extractNew_cons_rec t ks2 txn rest r0 [] hp htail2]
            rw [if_pos (hks _ hk)]
          · rw [if_neg hk] at h
            injection h with h2
            subst h2
            have htl : ∀ r ∈ tail, keyOf r ∈ ks2 := fun r hr =>
              hnw r (List.mem_cons_of_mem _ hr)
            have htail2 := ih ks ks2 _ htail hks htl
            rw [extractNew_cons_rec t ks2 txn rest r0 [] hp htail2]
            rw [if_pos (hnw r0 (List.mem_cons_self _ _))]

/-- C2: parse-and-persist is idempotent.  If a first run over `stmts`
staged `nw` (and so persisted `existing ++ nw`), a second run over the same
statement list stages zero new records and returns the ledger unchanged. -/
theorem C2_second_run_stages_nothing (t : MetaTable)
    (existing : List DividendRecord) (stmts : List StatementTransaction)
    (nw : List DividendRecord)
    (h : extractNew t (ledgerKeys existing) stmts = .ok nw) :
    extractNew t (ledgerKeys (existing ++ nw)) stmts = .ok [] ∧
    runLedger t (existing ++ nw) stmts = .ok (existing ++ nw) := by
  have hz : extractNew t (ledgerKeys (existing ++ nw)) stmts = .ok [] := by
    apply extractNew_superset_empty t stmts (ledgerKeys existing) _ nw h
    · intro k hk
      simp only [ledgerKeys, List.map_append, List.mem_append]
      exact Or.inl hk
    · intro r hr
      simp only [ledgerKeys, List.map_append, List.mem_append]
      exact Or.inr (List.mem_map_of_mem keyOf hr)
  refine ⟨hz, ?_⟩
  simp [runLedger, hz, Except.map]

theorem C2_second_run_stages_nothing_witness :
    extractNew [] (ledgerKeys ([] ++ [recEx])) [txEx] = .ok [] ∧
    runLedger [] ([] ++ [recEx]) [txEx] = .ok ([] ++ [recEx]) :=
  C2_second_run_stages_nothing [] [] [txEx] [recEx] (by with_unfolding_all decide)

/-- A dividend-marked transaction with a malformed amount makes
`processTxn` raise (`float` has no guard in the source). -/
theorem processTxn_malformed_amount (t : MetaTable)
    (txn : StatementTransaction) (info : String)
    (hinfo : txn.remittanceInfo = some info)
    (hmark : strContains (pyUpper info) markerTok = true)
    (hbad : txn.amountValue = .malformed) :
    processTxn t txn = .error .valueError := by
  simp [processTxn, hinfo, hmark, hbad, parseFloatField]

/-- A single raising transaction anywhere in the batch aborts the whole
extraction. -/
theorem extractNew_error_of_raise (t : MetaTable) (ks : List DivKey) :
    ∀ (stmts : List StatementTransaction) (txn : StatementTransaction),
      txn ∈ stmts → processTxn t txn = .error .valueError →
      ∃ e, extractNew t ks stmts = .error e := by
  intro stmts
  induction stmts with
  | nil => intro txn h; cases h
  | cons s rest ih =>
    intro txn hmem hp
    rcases List.mem_cons.mp hmem with hEq | hMem
    · subst hEq
      exact ⟨.valueError, extractNew_cons_error t ks txn rest _ hp⟩
    · cases hs : processTxn t s with
      | error e => exact ⟨e, extractNew_cons_error t ks s rest e hs⟩
      | ok r? =>
        rcases ih txn hMem hp with ⟨e, he⟩
        cases r? with
        | none => exact ⟨e, by rw [extractNew_cons_skip t ks s rest hs]; exact he⟩
        | some r0 => exact ⟨e, extractNew_cons_rec_error t ks s rest r0 e hs he⟩

/-- C3 — counterexample.  A batch holding one malformed-amount dividend
transaction and one well-formed one does not stage the well-formed record:
the whole run raises, while the claim requires only the single record to be
skipped.  (Alone, the well-formed transaction parses fine.) -/
theorem C3_counterexample_batch_abort :
    extractNew [] [] [txBad, txEx] = .error .valueError ∧
    extractNew [] [] [txEx] = .ok [recEx] := by
  constructor
  · with_unfolding_all decide
  · with_unfolding_all decide

/-- C3 (amended): a numeric parse failure of a dividend-marked transaction's
amount field aborts the entire extraction run — the `ValueError` escapes the
batch loop, so no record of the batch is staged and no ledger write occurs
(fail-hard per-batch, not fail-soft per-record). -/
theorem C3_amount_error_aborts_batch (t : MetaTable) (ks : List DivKey)
    (stmts : List StatementTransaction) (txn : StatementTransaction)
    (info : String) (hmem : txn ∈ stmts)
    (hinfo : txn.remittanceInfo = some info)
    (hmark : strContains (pyUpper info) markerTok = true)
    (hbad : txn.amountValue = .malformed) :
    ∃ e, extractNew t ks stmts = .error e :=
  extractNew_error_of_raise t ks stmts txn hmem
    (processTxn_malformed_amount t txn info hinfo hmark hbad)

theorem C3_amount_error_aborts_batch_witness :
    txBad ∈ [txBad, txEx] ∧ ∃ e, extractNew [] [] [txBad, txEx] = .error e :=
  ⟨List.mem_cons_self _ _,
   C3_amount_error_aborts_batch [] [] [txBad, txEx] txBad
     "ERTRAEGNISGUTSCHRIFT 04B0B0B0 EUR5" (List.mem_cons_self _ _) rfl
     (by with_unfolding_all decide) rfl⟩


/-! ## Theorems: position enrichment (C8) -/

/-- Banker's rounding moves a rational by at most one half. -/
theorem abs_roundHalfEven_sub (q : ℚ) : |(roundHalfEven q : ℚ) - q| ≤ 1/2 := by
  have hfl : (⌊q⌋ : ℚ) = q - Int.fract q := by unfold Int.fract; ring
  have hf0 : (0 : ℚ) ≤ Int.fract q := Int.fract_nonneg q
  have hf1 : Int.fract q < 1 := Int.fract_lt_one q
  unfold roundHalfEven
  split_ifs with h1 h2 h3
  · rw [hfl]
    have he : q - Int.fract q - q = -(Int.fract q) := by ring
    rw [he, abs_neg, abs_of_nonneg hf0]
    linarith
  · push_cast
    rw [hfl]
    have he : q - Int.fract q + 1 - q = 1 - Int.fract q := by ring
    rw [he, abs_of_nonneg (by linarith)]
    linarith
  · have hr : Int.fract q = 1/2 := le_antisymm (not_lt.mp h2) (not_lt.mp h1)
    rw [hfl, hr]
    have he : q - 1/2 - q = -(1/2 : ℚ) := by ring
    rw [he, abs_neg, abs_of_nonneg (by norm_num)]
  · have hr : Int.fract q = 1/2 := le_antisymm (not_lt.mp h2) (not_lt.mp h1)
    push_cast
    rw [hfl, hr]
    have he : q - 1/2 + 1 - q = (1/2 : ℚ) := by ring
    rw [he, abs_of_nonneg (by norm_num)]

/-- Cell-wise `round(x, 2)` moves a value by at most `1/200`. -/
theorem abs_round2_sub (q : ℚ) : |round2 q - q| ≤ 1/200 := by
  have h := abs_roundHalfEven_sub (q * 100)
  unfold round2
  have he : (roundHalfEven (q * 100) : ℚ) / 100 - q =
      ((roundHalfEven (q * 100) : ℚ) - q * 100) / 100 := by ring
  rw [he, abs_div, abs_of_pos (by norm_num : (0 : ℚ) < 100)]
  linarith

/-- Sum of mapped differences. -/
theorem sum_map_sub {α : Type} (f g : α → ℚ) :
    ∀ (l : List α), (l.map fun a => f a - g a).sum = (l.map f).sum - (l.map g).sum := by
  intro l
  induction l with
  | nil => simp
  | cons a l ih => simp only [List.map_cons, List.sum_cons, ih]; ring

/-- Sum of a constant right-multiple. -/
theorem sum_map_mul_const (r : ℚ) :
    ∀ (l : List ℚ), (l.map fun v => v * r).sum = l.sum * r := by
  intro l
  induction l with
  | nil => simp
  | cons a l ih => simp only [List.map_cons, List.sum_cons, ih]; ring

/-- Triangle inequality for a mapped sum. -/
theorem sum_abs_le_card {α : Type} (c : ℚ) (f : α → ℚ) :
    ∀ (l : List α), (∀ a ∈ l, |f a| ≤ c) → |(l.map f).sum| ≤ l.length * c := by
  intro l
  induction l with
  | nil => simp
  | cons a l ih =>
    intro h
    have ha := h a (List.mem_cons_self _ _)
    have hl := ih (fun b hb => h b (List.mem_cons_of_mem _ hb))
    have htri : |((a :: l).map f).sum| ≤ |f a| + |(l.map f).sum| := by
      simp only [List.map_cons, List.sum_cons]
      exact abs_add _ _
    have hlen : ((a :: l).length : ℚ) * c = c + l.length * c := by
      simp only [List.length_cons]
      push_cast
      ring
    rw [hlen]
    linarith

/-- C8: with a positive total, `_process_positions` assigns every position
`percentage_in_depot = round(current_value / total * 100, 2)`, and those
percentages sum to 100 up to the accumulated rounding error of at most
`1/200` per row. -/
theorem C8_percentage_in_depot (rows : List PositionRow)
    (hne : rows ≠ [])
    (hpos : 0 < (rows.map PositionRow.current_value).sum) :
    ((processPositions rows).map EnrichedRow.percentage_in_depot =
      rows.map (fun p => some (round2 (p.current_value /
        (rows.map PositionRow.current_value).sum * 100)))) ∧
    |(rows.map (fun p => round2 (p.current_value /
        (rows.map PositionRow.current_value).sum * 100))).sum - 100| ≤
      (rows.length : ℚ) * (1/200) := by
  have _ := hne
  constructor
  · simp only [processPositions, List.map_map]
    apply List.map_congr_left
    intro p _
    simp [hpos]
  · set T := (rows.map PositionRow.current_value).sum with hT
    clear_value T
    have hT0 : T ≠ 0 := ne_of_gt hpos
    have hsum : (rows.map (fun p => p.current_value / T * 100)).sum = 100 := by
      have h1 : rows.map (fun p => p.current_value / T * 100) =
          rows.map (fun p => p.current_value * (100 / T)) := by
        apply List.map_congr_left
        intro p _
        field_simp
      rw [h1]
      have h2 : rows.map (fun p => p.current_value * (100 / T)) =
          (rows.map PositionRow.current_value).map (fun v => v * (100 / T)) := by
        rw [List.map_map]
        rfl
      rw [h2, sum_map_mul_const (100 / T) (rows.map PositionRow.current_value), ← hT]
      field_simp
    have hdiff : (rows.map (fun p => round2 (p.current_value / T * 100))).sum - 100 =
        (rows.map (fun p => round2 (p.current_value / T * 100) -
          p.current_value / T * 100)).sum := by
      rw [sum_map_sub (fun p => round2 (p.current_value / T * 100))
        (fun p => p.current_value / T * 100) rows]
      rw [hsum]
    rw [hdiff]
    have hfin := sum_abs_le_card (1/200)
      (fun p => round2 (p.current_value / T * 100) - p.current_value / T * 100)
      rows (fun p _ => abs_round2_sub (p.current_value / T * 100))
    exact hfin

theorem C8_percentage_in_depot_witness :
    ((processPositions rowsEx).map EnrichedRow.percentage_in_depot =
      rowsEx.map (fun p => some (round2 (p.current_value /
        (rowsEx.map PositionRow.current_value).sum * 100)))) ∧
    |(rowsEx.map (fun p => round2 (p.current_value /
        (rowsEx.map PositionRow.current_value).sum * 100))).sum - 100| ≤
      (rowsEx.length : ℚ) * (1/200) :=
  C8_percentage_in_depot rowsEx (List.cons_ne_nil _ _)
    (by norm_num [rowsEx, List.map_cons, List.map_nil, List.sum_cons, List.sum_nil])


/-! ## Theorems: momentum currency invariance (C7) -/

/-- `dropna` commutes with scaling the closes. -/
theorem dropna_scale (c : ℚ) :
    ∀ hist, dropna (scaleHist c hist) =
      (dropna hist).map (fun p => (p.1, p.2 * c)) := by
  intro hist
  induction hist with
  | nil => rfl
  | cons p rest ih =>
    cases p with
    | mk d v =>
      cases v with
      | none => simpa [dropna, scaleHist] using ih
      | some q => simpa [dropna, scaleHist] using ih

/-- Scaling every close of a cleaned series by a nonzero multiplier leaves
the momentum unchanged: dates are untouched, the base close is scaled by the
same factor, and the factor cancels in the ratio. -/
theorem momentumOfCleaned_scale (c : ℚ) (hc : c ≠ 0) (s : List (SDate × ℚ)) :
    momentumOfCleaned (s.map (fun p => (p.1, p.2 * c))) = momentumOfCleaned s := by
  unfold momentumOfCleaned
  rw [List.getLast?_map]
  cases hlast : s.getLast? with
  | none => rfl
  | some lastP =>
    simp only [Option.map_some']
    rw [List.takeWhile_map]
    have hcomp : ((fun p : SDate × ℚ => SDate.leB p.1 (subMonths3 lastP.1)) ∘
        (fun p : SDate × ℚ => (p.1, p.2 * c))) =
        (fun p : SDate × ℚ => SDate.leB p.1 (subMonths3 lastP.1)) := rfl
    rw [hcomp, List.getLast?_map, List.length_map, List.get?_map]
    cases hbp : (s.takeWhile
        (fun p : SDate × ℚ => SDate.leB p.1 (subMonths3 lastP.1))).getLast? with
    | some bp =>
      simp only [Option.map_some']
      by_cases hb0 : bp.2 = 0
      · rw [if_pos (show bp.2 * c = 0 by rw [hb0, zero_mul]), if_pos hb0]
      · rw [if_neg (mul_ne_zero hb0 hc), if_neg hb0,
          mul_div_mul_right lastP.2 bp.2 hc]
    | none =>
      simp only [Option.map_none']
      by_cases hlen : s.length ≤ 63
      · rw [if_pos hlen, if_pos hlen]
      · rw [if_neg hlen, if_neg hlen]
        cases hg : s.get? (s.length - 63) with
        | none => rfl
        | some bp =>
          simp only [Option.map_some']
          by_cases hb0 : bp.2 = 0
          · rw [if_pos (show bp.2 * c = 0 by rw [hb0, zero_mul]), if_pos hb0]
          · rw [if_neg (mul_ne_zero hb0 hc), if_neg hb0,
              mul_div_mul_right lastP.2 bp.2 hc]

/-- C7: the trailing 3-month momentum computed by `_momentum_3m_native` is
invariant under multiplying the whole native close series by any nonzero FX
multiplier. -/
theorem C7_momentum_currency_invariant (hist : List (SDate × Option ℚ))
    (c : ℚ) (hc : c ≠ 0) :
    momentum3mNative (scaleHist c hist) = momentum3mNative hist := by
  unfold momentum3mNative
  have hemp : (scaleHist c hist).isEmpty = hist.isEmpty := by
    cases hist with
    | nil => rfl
    | cons p rest => rfl
  rw [hemp, dropna_scale]
  by_cases h : hist.isEmpty = true
  · rw [if_pos h, if_pos h]
  · rw [if_neg h, if_neg h, momentumOfCleaned_scale c hc]

theorem C7_momentum_currency_invariant_witness :
    momentum3mNative (scaleHist 2 histEx) = momentum3mNative histEx :=
  C7_momentum_currency_invariant histEx 2 (by norm_num)


/-! ## Theorems: price-update error handling (C4, C5) -/

/-- C4 — the bug at its failing input.  A WKN absent from the ticker cache
makes `wkn_to_ticker_lookup` evaluate `cache[wkn]` on a key it just failed
to find: `KeyError` propagates and aborts the whole price-update run.  Only
a WKN cached with a falsy value (JSON `null` / `""`) is logged and skipped
with the position left untouched, as the spec describes for all misses. -/
theorem C4_ticker_miss_raises :
    updatePricesFromYf envC4 [posC4] = .error (.keyError "XYZ123") ∧
    updatePricesFromYf envC4 [posC4b] =
      .ok ([posC4b], [.noTicker "ABCDEF"]) := by
  constructor
  · with_unfolding_all decide
  · with_unfolding_all decide

/-- C5 — counterexample.  With prior price 100, native price 50 (USD) and a
dead FX provider, the run does not leave `current_price` at its prior
value: the degraded multiplier `1.0` sets it to the native price 50. -/
theorem C5_counterexample_price_set_to_native :
    updatePricesFromYf envC5 [posC5] =
      .ok ([⟨"W1", some 50, none⟩], [.fxWarn "USD", .noMomentum "W1"]) ∧
    some (50 : ℚ) ≠ posC5.current_price := by
  constructor
  · with_unfolding_all decide
  · with_unfolding_all decide

/-- C5 (amended): when neither FX quote of a non-EUR currency resolves,
`fx_to_eur_multiplier` degrades to multiplier `1.0` — so the position's
`current_price` becomes its native-currency price, `pn * 1 = pn`, rather
than keeping its prior value — logs exactly one warning, and caches the
degraded multiplier so that any later position of the same run with the
same currency resolves silently (one warning per currency per run). -/
theorem C5_fx_degrade_multiplier_one (env : Env) (cache : FxCache)
    (cur0 : String)
    (h1 : alookup (normCur cur0) cache = none)
    (h2 : normCur cur0 ≠ "EUR")
    (h3 : ∀ p, env.fxPrice ("EUR" ++ normCur cur0 ++ "=X") = some p → ¬ 0 < p)
    (h4 : ∀ p, env.fxPrice (normCur cur0 ++ "EUR=X") = some p → ¬ 0 < p) :
    fxToEurMultiplier env cache cur0 =
      (1, (normCur cur0, 1) :: cache, [.fxWarn (normCur cur0)]) ∧
    fxToEurMultiplier env ((normCur cur0, 1) :: cache) cur0 =
      (1, (normCur cur0, 1) :: cache, []) ∧
    ∀ pn : ℚ, pn * (fxToEurMultiplier env cache cur0).1 = pn := by
  have hmain : fxToEurMultiplier env cache cur0 =
      (1, (normCur cur0, 1) :: cache, [.fxWarn (normCur cur0)]) := by
    unfold fxToEurMultiplier fxSecond
    simp only [h1]
    rw [if_neg h2]
    cases hq1 : env.fxPrice ("EUR" ++ normCur cur0 ++ "=X") with
    | some p =>
      dsimp only
      rw [if_neg (h3 p hq1)]
      cases hq2 : env.fxPrice (normCur cur0 ++ "EUR=X") with
      | some p2 =>
        dsimp only
        rw [if_neg (h4 p2 hq2)]
      | none => rfl
    | none =>
      dsimp only
      cases hq2 : env.fxPrice (normCur cur0 ++ "EUR=X") with
      | some p2 =>
        dsimp only
        rw [if_neg (h4 p2 hq2)]
      | none => rfl
  refine ⟨hmain, ?_, ?_⟩
  · unfold fxToEurMultiplier
    simp [alookup]
  · intro pn
    rw [hmain]
    exact mul_one pn

theorem C5_fx_degrade_multiplier_one_witness :
    fxToEurMultiplier envC5 [("EUR", 1)] "USD" =
      (1, (normCur "USD", 1) :: [("EUR", 1)], [.fxWarn (normCur "USD")]) ∧
    (50 : ℚ) * (fxToEurMultiplier envC5 [("EUR", 1)] "USD").1 = 50 := by
  have h := C5_fx_degrade_multiplier_one envC5 [("EUR", 1)] "USD"
    (by with_unfolding_all decide) (by with_unfolding_all decide)
    (fun p hp => Option.noConfusion hp) (fun p hp => Option.noConfusion hp)
  exact ⟨h.1, h.2.2 50⟩


/-! ## Theorems: per-field update independence (C6) -/

/-- C6 — counterexample.  A position with a prior `momentum_3m` value whose
momentum calculation fails (no history) gets `momentum_3m = NaN` (`none`),
not its prior value, even though its price updates fine. -/
theorem C6_counterexample_momentum_not_retained :
    updatePricesFromYf envC6 [posC6] =
      .ok ([⟨"W1", some 50, none⟩], [.noMomentum "W1"]) ∧
    (⟨"W1", some 50, none⟩ : Position).momentum_3m ≠ posC6.momentum_3m := by
  constructor
  · with_unfolding_all decide
  · with_unfolding_all decide

/-- Non-membership in `seen ++ [w]`. -/
theorem mem_app_single {α : Type} {w2 w : α} {seen : List α}
    (h1 : w2 ∉ seen) (h2 : w2 ≠ w) : w2 ∉ seen ++ [w] := by
  intro hmem
  rcases List.mem_append.mp hmem with h | h
  · exact h1 h
  · rw [List.mem_singleton] at h
    exact h2 h

/-- Extending the seen-set without touching the map keeps the lookup
invariant when the new WKN's pipeline yields nothing. -/
theorem lookup_inv_extend {β : Type} (f : String → Option β)
    (mp : List (String × β)) (seen : List String) (w : String)
    (hmp : ∀ w2, alookup w2 mp = if w2 ∈ seen then f w2 else none)
    (hw : f w = none) :
    ∀ w2, alookup w2 mp = if w2 ∈ seen ++ [w] then f w2 else none := by
  intro w2
  rw [hmp w2]
  by_cases hin : w2 ∈ seen
  · rw [if_pos hin, if_pos (List.mem_append_left _ hin)]
  · rw [if_neg hin]
    by_cases hww : w2 = w
    · subst hww
      rw [if_pos (List.mem_append_right _ (List.mem_singleton.mpr rfl))]
      rw [hw]
    · rw [if_neg (mem_app_single hin hww)]

/-- Inserting the new WKN's pipeline result in front keeps the lookup
invariant. -/
theorem lookup_inv_insert {β : Type} (f : String → Option β)
    (mp : List (String × β)) (seen : List String) (w : String) (v : β)
    (hmp : ∀ w2, alookup w2 mp = if w2 ∈ seen then f w2 else none)
    (hw : f w = some v) :
    ∀ w2, alookup w2 ((w, v) :: mp) =
      if w2 ∈ seen ++ [w] then f w2 else none := by
  intro w2
  show (if w = w2 then some v else alookup w2 mp) = _
  by_cases hww : w = w2
  · rw [if_pos hww, ← hww]
    rw [if_pos (List.mem_append_right _ (List.mem_singleton.mpr rfl))]
    exact hw.symm
  · rw [if_neg hww, hmp w2]
    by_cases hin : w2 ∈ seen
    · rw [if_pos hin, if_pos (List.mem_append_left _ hin)]
    · rw [if_neg hin, if_neg (mem_app_single hin (fun h => hww h.symm))]

/-- On a cache miss, `fx_to_eur_multiplier` returns exactly the cache-free
multiplier and prepends it to the cache. -/
theorem fxToEurMultiplier_miss (env : Env) (cache : FxCache) (cur0 : String)
    (hl : alookup (normCur cur0) cache = none) :
    (fxToEurMultiplier env cache cur0).1 = fxMultNormed env (normCur cur0) ∧
    (fxToEurMultiplier env cache cur0).2.1 =
      (normCur cur0, fxMultNormed env (normCur cur0)) :: cache := by
  unfold fxToEurMultiplier fxSecond fxMultNormed fxMultSecondPure
  simp only [hl]
  by_cases hEur : normCur cur0 = "EUR"
  · simp only [if_pos hEur]
    exact ⟨by trivial, by trivial⟩
  · simp only [if_neg hEur]
    cases hq1 : env.fxPrice ("EUR" ++ normCur cur0 ++ "=X") with
    | some p =>
      dsimp only
      by_cases hp : 0 < p
      · simp only [if_pos hp]
        exact ⟨by trivial, by trivial⟩
      · simp only [if_neg hp]
        cases hq2 : env.fxPrice (normCur cur0 ++ "EUR=X") with
        | some p2 =>
          dsimp only
          by_cases hp2 : 0 < p2
          · simp only [if_pos hp2]
            exact ⟨by trivial, by trivial⟩
          · simp only [if_neg hp2]
            exact ⟨by trivial, by trivial⟩
        | none => exact ⟨by trivial, by trivial⟩
    | none =>
      dsimp only
      cases hq2 : env.fxPrice (normCur cur0 ++ "EUR=X") with
      | some p2 =>
        dsimp only
        by_cases hp2 : 0 < p2
        · simp only [if_pos hp2]
          exact ⟨by trivial, by trivial⟩
        · simp only [if_neg hp2]
          exact ⟨by trivial, by trivial⟩
      | none => exact ⟨by trivial, by trivial⟩

/-- A consistent cache stays consistent through `fx_to_eur_multiplier`, and
the returned multiplier is the cache-free one. -/
theorem fxToEurMultiplier_spec (env : Env) (cache : FxCache) (cur0 : String)
    (hok : CacheOK env cache) :
    (fxToEurMultiplier env cache cur0).1 = fxMultOf env cur0 ∧
    CacheOK env (fxToEurMultiplier env cache cur0).2.1 := by
  cases hl : alookup (normCur cur0) cache with
  | some m =>
    have h1 : fxToEurMultiplier env cache cur0 = (m, cache, []) := by
      unfold fxToEurMultiplier
      simp only [hl]
    rw [h1]
    exact ⟨hok _ _ hl, hok⟩
  | none =>
    obtain ⟨hv, hc⟩ := fxToEurMultiplier_miss env cache cur0 hl
    refine ⟨hv, ?_⟩
    rw [hc]
    intro c m hm
    by_cases hcc : normCur cur0 = c
    · have : some (fxMultNormed env (normCur cur0)) = some m := by
        rw [← hm]
        show _ = (if normCur cur0 = c then _ else _)
        rw [if_pos hcc]
      injection this with h2
      rw [← h2, hcc]
    · have : alookup c cache = some m := by
        rw [← hm]
        show _ = (if normCur cur0 = c then _ else _)
        rw [if_neg hcc]
      exact hok c m this

/-- The loop invariant holds at the start of the run. -/
theorem mapsInv_init (env : Env) : MapsInv env initState [] := by
  refine ⟨?_, ?_, ?_⟩
  · intro cur m hm
    simp only [initState, alookup] at hm
    by_cases h : ("EUR" : String) = cur
    · rw [if_pos h] at hm
      injection hm with h2
      rw [← h2, ← h]
      unfold fxMultNormed
      rw [if_pos rfl]
    · rw [if_neg h] at hm
      exact Option.noConfusion hm
  · intro w
    simp [initState, alookup]
  · intro w
    simp [initState, alookup]


/-- One loop iteration preserves the invariant, extending the seen list by
the processed WKN. -/
theorem stepWkn_maps (env : Env) (st : UpdState) (w : String)
    (st1 : UpdState) (seen : List String)
    (h : stepWkn env st w = .ok st1) (hinv : MapsInv env st seen) :
    MapsInv env st1 (seen ++ [w]) := by
  obtain ⟨hfx, hpm, hmm⟩ := hinv
  unfold stepWkn wknToTickerLookup at h
  cases halk : alookup w env.tickerCache with
  | none =>
    rw [halk] at h
    exact Except.noConfusion h
  | some tv =>
    rw [halk] at h
    dsimp only at h
    by_cases htv : pyTruthyS tv = false
    · rw [if_pos htv] at h
      injection h with h2
      subst h2
      have hres : resolveTicker env w = none := by
        unfold resolveTicker
        rw [halk]
        dsimp only
        rw [if_neg (by simp [htv])]
      refine ⟨hfx, ?_, ?_⟩
      · exact lookup_inv_extend (perWknPriceEur env) st.priceMap seen w hpm
          (by unfold perWknPriceEur; rw [hres])
      · exact lookup_inv_extend (perWknMom env) st.momMap seen w hmm
          (by unfold perWknMom; rw [hres])
    · have htv2 : pyTruthyS tv = true := by
        cases hb : pyTruthyS tv
        · exact absurd hb htv
        · rfl
      rw [if_neg htv] at h
      have hres : resolveTicker env w = some (tv.getD "") := by
        unfold resolveTicker
        rw [halk]
        dsimp only
        rw [if_pos htv2]
      cases hsl : safeLastPrice (env.info (tv.getD "")) with
      | some pn =>
        rw [hsl] at h
        dsimp only at h
        have hfxr := fxToEurMultiplier_spec env st.fx
          (tickerCurrency (env.info (tv.getD ""))) hfx
        have hwprice : perWknPriceEur env w =
            some (pn * (fxToEurMultiplier env st.fx
              (tickerCurrency (env.info (tv.getD "")))).1) := by
          unfold perWknPriceEur
          rw [hres]
          dsimp only
          rw [hsl]
          dsimp only
          rw [hfxr.1]
        cases hm : momentum3mNative ((env.info (tv.getD "")).hist9m) with
        | some m =>
          rw [hm] at h
          dsimp only at h
          injection h with h2
          subst h2
          refine ⟨hfxr.2, ?_, ?_⟩
          · exact lookup_inv_insert (perWknPriceEur env) st.priceMap seen w
              _ hpm hwprice
          · exact lookup_inv_insert (perWknMom env) st.momMap seen w m hmm
              (by unfold perWknMom; rw [hres]; dsimp only; rw [hm])
        | none =>
          rw [hm] at h
          dsimp only at h
          injection h with h2
          subst h2
          refine ⟨hfxr.2, ?_, ?_⟩
          · exact lookup_inv_insert (perWknPriceEur env) st.priceMap seen w
              _ hpm hwprice
          · exact lookup_inv_extend (perWknMom env) st.momMap seen w hmm
              (by unfold perWknMom; rw [hres]; dsimp only; rw [hm])
      | none =>
        rw [hsl] at h
        dsimp only at h
        have hwprice : perWknPriceEur env w = none := by
          unfold perWknPriceEur
          rw [hres]
          dsimp only
          rw [hsl]
        cases hm : momentum3mNative ((env.info (tv.getD "")).hist9m) with
        | some m =>
          rw [hm] at h
          dsimp only at h
          injection h with h2
          subst h2
          refine ⟨hfx, ?_, ?_⟩
          · exact lookup_inv_extend (perWknPriceEur env) st.priceMap seen w
              hpm hwprice
          · exact lookup_inv_insert (perWknMom env) st.momMap seen w m hmm
              (by unfold perWknMom; rw [hres]; dsimp only; rw [hm])
        | none =>
          rw [hm] at h
          dsimp only at h
          injection h with h2
          subst h2
          refine ⟨hfx, ?_, ?_⟩
          · exact lookup_inv_extend (perWknPriceEur env) st.priceMap seen w
              hpm hwprice
          · exact lookup_inv_extend (perWknMom env) st.momMap seen w hmm
              (by unfold perWknMom; rw [hres]; dsimp only; rw [hm])

/-- The whole loop preserves the invariant. -/
theorem runWkns_maps (env : Env) :
    ∀ (l : List String) (st : UpdState) (seen : List String) (st2 : UpdState),
      runWkns env st l = .ok st2 → MapsInv env st seen →
      MapsInv env st2 (seen ++ l) := by
  intro l
  induction l with
  | nil =>
    intro st seen st2 h hinv
    simp only [runWkns] at h
    injection h with h2
    subst h2
    rw [List.append_nil]
    exact hinv
  | cons w ws ih =>
    intro st seen st2 h hinv
    simp only [runWkns] at h
    cases hs : stepWkn env st w with
    | error e =>
      rw [hs] at h
      exact Except.noConfusion h
    | ok stm =>
      rw [hs] at h
      dsimp only at h
      have hinv2 := stepWkn_maps env st w stm seen hs hinv
      have hres := ih stm (seen ++ [w]) st2 h hinv2
      rwa [List.append_assoc, List.singleton_append] at hres

/-- C6 (amended): price and momentum are updated per-field and
independently.  Whenever the run completes, each output position is its
input with `current_price` replaced by the result of the price pipeline
alone — prior value retained when that pipeline fails — and `momentum_3m`
replaced by the result of the momentum pipeline alone — set to unavailable
(`NaN`) when that pipeline fails, the prior value not being retained. -/
theorem C6_per_field_update (env : Env) (df : List Position)
    (out : List Position) (logs : List LogMsg)
    (h : updatePricesFromYf env df = .ok (out, logs)) :
    out = df.map (fieldwiseUpdate env) := by
  unfold updatePricesFromYf at h
  cases hf : runWkns env initState (df.map Position.wkn) with
  | error e =>
    rw [hf] at h
    exact Except.noConfusion h
  | ok st =>
    rw [hf] at h
    dsimp only at h
    injection h with h2
    injection h2 with hA hB
    subst hA
    have hinv := runWkns_maps env (df.map Position.wkn) initState [] st hf
      (mapsInv_init env)
    rw [List.nil_append] at hinv
    obtain ⟨hfx, hpm, hmm⟩ := hinv
    apply List.map_congr_left
    intro p hp
    have hmemw : p.wkn ∈ df.map Position.wkn := List.mem_map_of_mem _ hp
    have hpmw := hpm p.wkn
    rw [if_pos hmemw] at hpmw
    have hmmw := hmm p.wkn
    rw [if_pos hmemw] at hmmw
    unfold applyMaps fieldwiseUpdate
    by_cases hemp : st.priceMap.isEmpty
    · have hlknone : alookup p.wkn st.priceMap = none := by
        have he : st.priceMap = [] := List.isEmpty_iff.mp hemp
        rw [he]
        rfl
      have hperw : perWknPriceEur env p.wkn = none := by
        rw [← hpmw]
        exact hlknone
      rw [if_pos hemp, hperw, hmmw]
    · rw [if_neg hemp, hpmw, hmmw]

theorem C6_per_field_update_witness :
    updatePricesFromYf envC5 [posC5] =
      .ok ([⟨"W1", some 50, none⟩], [.fxWarn "USD", .noMomentum "W1"]) ∧
    [(⟨"W1", some 50, none⟩ : Position)] = [posC5].map (fieldwiseUpdate envC5) :=
  ⟨by with_unfolding_all decide,
   C6_per_field_update envC5 [posC5] [⟨"W1", some 50, none⟩]
     [.fxWarn "USD", .noMomentum "W1"] (by with_unfolding_all decide)⟩


/-! ## Theorems: allocation distributor (C9, C10) -/

/-- A column never written by the guarded write sequence keeps its initial
value. -/
theorem foldWrites_skip (cols : List String) :
    ∀ (ws : List (String × ℚ)) (f0 : String → ℚ) (c : String),
      (∀ p ∈ ws, p.1 ≠ c) →
      (ws.foldl (fun f cw =>
        if cw.1 ∈ cols then (fun x => if x = cw.1 then cw.2 else f x) else f)
        f0) c = f0 c := by
  intro ws
  induction ws with
  | nil => intro f0 c _; rfl
  | cons p rest ih =>
    intro f0 c h
    simp only [List.foldl_cons]
    have hp := h p (List.mem_cons_self _ _)
    have hrest : ∀ q ∈ rest, q.1 ≠ c := fun q hq => h q (List.mem_cons_of_mem _ hq)
    by_cases hcol : p.1 ∈ cols
    · rw [if_pos hcol, ih _ c hrest]
      show (if c = p.1 then p.2 else f0 c) = f0 c
      rw [if_neg (fun hcc : c = p.1 => hp hcc.symm)]
    · rw [if_neg hcol]
      exact ih f0 c hrest

/-- A declared column written exactly once ends with its written value. -/
theorem foldWrites_hit (cols : List String) :
    ∀ (ws : List (String × ℚ)) (f0 : String → ℚ) (c : String) (v : ℚ),
      (c, v) ∈ ws → (ws.map Prod.fst).Nodup → c ∈ cols →
      (ws.foldl (fun f cw =>
        if cw.1 ∈ cols then (fun x => if x = cw.1 then cw.2 else f x) else f)
        f0) c = v := by
  intro ws
  induction ws with
  | nil => intro f0 c v h _ _; cases h
  | cons p rest ih =>
    intro f0 c v hmem hnd hc
    simp only [List.map_cons, List.nodup_cons] at hnd
    simp only [List.foldl_cons]
    rcases List.mem_cons.mp hmem with hEq | hMem
    · subst hEq
      have hnotin : ∀ q ∈ rest, q.1 ≠ c := by
        intro q hq hqc
        apply hnd.1
        show c ∈ List.map Prod.fst rest
        rw [← hqc]
        exact List.mem_map_of_mem Prod.fst hq
      rw [if_pos hc, foldWrites_skip cols rest _ c hnotin]
      show (if c = c then v else f0 c) = v
      rw [if_pos rfl]
    · have hp1 : p.1 ≠ c := by
        intro hpc
        apply hnd.1
        rw [hpc]
        exact List.mem_map_of_mem Prod.fst hMem
      by_cases hcol : p.1 ∈ cols
      · rw [if_pos hcol]
        exact ih _ c v hMem hnd.2 hc
      · rw [if_neg hcol]
        exact ih f0 c v hMem hnd.2 hc

/-- Writes whose column is not declared are dropped by the
`if col_name in df.columns` guard and change nothing. -/
theorem foldWrites_undeclared (cols : List String) :
    ∀ (ws : List (String × ℚ)) (f0 : String → ℚ) (c : String),
      (∀ p ∈ ws, p.1 ∉ cols) →
      (ws.foldl (fun f cw =>
        if cw.1 ∈ cols then (fun x => if x = cw.1 then cw.2 else f x) else f)
        f0) c = f0 c := by
  intro ws
  induction ws with
  | nil => intro f0 c _; rfl
  | cons p rest ih =>
    intro f0 c h
    simp only [List.foldl_cons]
    rw [if_neg (h p (List.mem_cons_self _ _))]
    exact ih f0 c (fun q hq => h q (List.mem_cons_of_mem _ hq))

/-- With a positive value and a metadata hit, the allocation row is exactly
the dimension's guarded write sequence over the zero row. -/
theorem allocRowDim_spec (t : MetaTable) (cols : List String)
    (writesOf : WKNMetadata → ℚ → List (String × ℚ))
    (wkn : String) (raw : RawMeta) (v : ℚ)
    (hl : alookup wkn t = some raw) (hv : 0 < v) :
    allocRowDim t cols writesOf (some v) wkn =
      writeCells cols (writesOf (mkMetadata raw) v) := by
  unfold allocRowDim getMetadata
  dsimp only
  rw [if_neg (not_le.mpr hv), hl]
  simp only [Option.map_some']

/-- Unfolding equation of `allBuckets` at a cons cell. -/
theorem allBuckets_cons (single : RawMeta → Option String)
    (bdf : RawMeta → Option (List (String × ℚ)))
    (pr : String × RawMeta) (rest : MetaTable) :
    allBuckets single bdf (pr :: rest) =
      (if pyTruthyStrip ((single pr.2).getD "") then [(single pr.2).getD ""]
       else []) ++
      ((bdf pr.2).getD []).map Prod.fst ++ allBuckets single bdf rest := rfl

/-- Every breakdown key of a table entry is a declared bucket. -/
theorem mem_allBuckets_of_bdKey (single : RawMeta → Option String)
    (bdf : RawMeta → Option (List (String × ℚ))) :
    ∀ (t : MetaTable) (wkn : String) (raw : RawMeta),
      alookup wkn t = some raw →
      ∀ x ∈ ((bdf raw).getD []).map Prod.fst, x ∈ allBuckets single bdf t := by
  intro t
  induction t with
  | nil => intro wkn raw hl; cases hl
  | cons pr rest ih =>
    intro wkn raw hl x hx
    have hlk : (if pr.1 = wkn then some pr.2 else alookup wkn rest) = some raw := hl
    rw [allBuckets_cons]
    by_cases hw : pr.1 = wkn
    · rw [if_pos hw] at hlk
      injection hlk with h2
      subst h2
      exact List.mem_append.mpr (Or.inl (List.mem_append.mpr (Or.inr hx)))
    · rw [if_neg hw] at hlk
      exact List.mem_append.mpr (Or.inr (ih wkn raw hlk x hx))

/-- Every genuinely set single bucket value of a table entry is a declared
bucket. -/
theorem mem_allBuckets_of_single (single : RawMeta → Option String)
    (bdf : RawMeta → Option (List (String × ℚ))) :
    ∀ (t : MetaTable) (wkn : String) (raw : RawMeta),
      alookup wkn t = some raw →
      ∀ r, single raw = some r → pyTruthyStrip r = true →
        r ∈ allBuckets single bdf t := by
  intro t
  induction t with
  | nil => intro wkn raw hl; cases hl
  | cons pr rest ih =>
    intro wkn raw hl r hr hset
    have hlk : (if pr.1 = wkn then some pr.2 else alookup wkn rest) = some raw := hl
    rw [allBuckets_cons]
    by_cases hw : pr.1 = wkn
    · rw [if_pos hw] at hlk
      injection hlk with h2
      subst h2
      rw [hr]
      simp only [Option.getD_some]
      rw [if_pos hset]
      exact List.mem_append.mpr (Or.inl (List.mem_append.mpr
        (Or.inl (List.mem_singleton.mpr rfl))))
    · rw [if_neg hw] at hlk
      exact List.mem_append.mpr (Or.inr (ih wkn raw hlk r hr hset))


/-- C9 — counterexample.  A position whose metadata entry has neither a
region key nor a region breakdown ("neither exists") still contributes: the
missing key is defaulted to the truthy `"Unknown"`, the single-region
branch fires, and since another table entry declares the `"Unknown"`
region, the full `current_value` of 500 lands in the
`region_unknown_value` bucket instead of no bucket at all. -/
theorem C9_counterexample_defaulted_unknown :
    rawNoRegion.region = none ∧ rawNoRegion.region_breakdown = none ∧
    regionCellsOfRow tableC9 (some 500) "AAA111" (colNameR "Unknown") = 500 ∧
    (500 : ℚ) ≠ 0 := by
  refine ⟨rfl, rfl, ?_, by norm_num⟩
  with_unfolding_all decide

/-- C9 (amended): for a position with positive `current_value` and resolved
metadata, per dimension: an ETF with a non-empty breakdown receives
`current_value * weight` in each breakdown bucket (the breakdown's
normalized column names being distinct); otherwise a genuinely set single
region/sector receives the whole `current_value` and every other bucket
stays 0; a position whose region/sector key is absent is defaulted to
`"Unknown"` and contributes its whole `current_value` to the `"Unknown"`
bucket when that column is declared — silently to no bucket otherwise;
only a position whose region/sector is explicitly empty or whitespace
(without a breakdown) contributes to no bucket of that dimension. -/
theorem C9_allocation_distribution_amended (t : MetaTable) (wkn : String)
    (raw : RawMeta) (v : ℚ)
    (hl : alookup wkn t = some raw) (hv : 0 < v) :
    (((mkMetadata raw).isEtf && (mkMetadata raw).hasRegionBd) = true →
      (((mkMetadata raw).region_breakdown.getD []).map
        (fun rw => colNameR rw.1)).Nodup →
      ∀ rw ∈ (mkMetadata raw).region_breakdown.getD [],
        regionCellsOfRow t (some v) wkn (colNameR rw.1) = v * rw.2) ∧
    (((mkMetadata raw).isEtf && (mkMetadata raw).hasRegionBd) = false →
      ∀ r, raw.region = some r → pyTruthyStrip r = true →
        regionCellsOfRow t (some v) wkn (colNameR r) = v ∧
        ∀ c, c ≠ colNameR r → regionCellsOfRow t (some v) wkn c = 0) ∧
    (((mkMetadata raw).isEtf && (mkMetadata raw).hasRegionBd) = false →
      pyTruthyStrip (mkMetadata raw).region = false →
      ∀ c, regionCellsOfRow t (some v) wkn c = 0) ∧
    (((mkMetadata raw).isEtf && (mkMetadata raw).hasRegionBd) = false →
      raw.region = none →
      (colNameR "Unknown" ∈ regionCols t →
        regionCellsOfRow t (some v) wkn (colNameR "Unknown") = v ∧
        ∀ c, c ≠ colNameR "Unknown" → regionCellsOfRow t (some v) wkn c = 0) ∧
      (colNameR "Unknown" ∉ regionCols t →
        ∀ c, regionCellsOfRow t (some v) wkn c = 0)) ∧
    (((mkMetadata raw).isEtf && (mkMetadata raw).hasSectorBd) = true →
      (((mkMetadata raw).sector_breakdown.getD []).map
        (fun rw => colNameS rw.1)).Nodup →
      ∀ rw ∈ (mkMetadata raw).sector_breakdown.getD [],
        sectorCellsOfRow t (some v) wkn (colNameS rw.1) = v * rw.2) ∧
    (((mkMetadata raw).isEtf && (mkMetadata raw).hasSectorBd) = false →
      ∀ r, raw.sector = some r → pyTruthyStrip r = true →
        sectorCellsOfRow t (some v) wkn (colNameS r) = v ∧
        ∀ c, c ≠ colNameS r → sectorCellsOfRow t (some v) wkn c = 0) ∧
    (((mkMetadata raw).isEtf && (mkMetadata raw).hasSectorBd) = false →
      pyTruthyStrip (mkMetadata raw).sector = false →
      ∀ c, sectorCellsOfRow t (some v) wkn c = 0) ∧
    (((mkMetadata raw).isEtf && (mkMetadata raw).hasSectorBd) = false →
      raw.sector = none →
      (colNameS "Unknown" ∈ sectorCols t →
        sectorCellsOfRow t (some v) wkn (colNameS "Unknown") = v ∧
        ∀ c, c ≠ colNameS "Unknown" → sectorCellsOfRow t (some v) wkn c = 0) ∧
      (colNameS "Unknown" ∉ sectorCols t →
        ∀ c, sectorCellsOfRow t (some v) wkn c = 0)) := by
  have hsR : regionCellsOfRow t (some v) wkn =
      writeCells (regionCols t) (regionWrites (mkMetadata raw) v) :=
    allocRowDim_spec t (regionCols t) regionWrites wkn raw v hl hv
  have hsS : sectorCellsOfRow t (some v) wkn =
      writeCells (sectorCols t) (sectorWrites (mkMetadata raw) v) :=
    allocRowDim_spec t (sectorCols t) sectorWrites wkn raw v hl hv
  refine ⟨?_, ?_, ?_, ?_, ?_, ?_, ?_, ?_⟩
  · -- region, ETF with breakdown
    intro hETF hnd rw hrw
    have hwr : regionWrites (mkMetadata raw) v =
        ((mkMetadata raw).region_breakdown.getD []).map
          (fun rw => (colNameR rw.1, v * rw.2)) := by
      unfold regionWrites
      rw [if_pos hETF]
    rw [hsR, hwr]
    unfold writeCells
    apply foldWrites_hit
    · exact List.mem_map_of_mem _ hrw
    · rw [List.map_map]
      exact hnd
    · apply List.mem_map_of_mem colNameR
      exact mem_allBuckets_of_bdKey RawMeta.region RawMeta.region_breakdown
        t wkn raw hl rw.1 (List.mem_map_of_mem Prod.fst hrw)
  · -- region, explicitly set single value
    intro hnE r hr hset
    have hmdr : (mkMetadata raw).region = r := by
      unfold mkMetadata
      rw [hr]
      rfl
    have hwr : regionWrites (mkMetadata raw) v = [(colNameR r, v)] := by
      unfold regionWrites
      rw [if_neg (by simp [hnE]), hmdr, if_pos hset]
    constructor
    · rw [hsR, hwr]
      unfold writeCells
      apply foldWrites_hit
      · exact List.mem_singleton.mpr rfl
      · simp
      · apply List.mem_map_of_mem colNameR
        exact mem_allBuckets_of_single RawMeta.region RawMeta.region_breakdown
          t wkn raw hl r hr hset
    · intro c hc
      rw [hsR, hwr]
      unfold writeCells
      apply foldWrites_skip
      intro p hp
      rw [List.mem_singleton.mp hp]
      exact fun h2 => hc h2.symm
  · -- region, explicitly blank single value
    intro hnE hstrip c
    have hwr : regionWrites (mkMetadata raw) v = [] := by
      unfold regionWrites
      rw [if_neg (by simp [hnE]), if_neg (by simp [hstrip])]
    rw [hsR, hwr]
    rfl
  · -- region, key absent: defaulted to "Unknown"
    intro hnE hr
    have hmdr : (mkMetadata raw).region = "Unknown" := by
      unfold mkMetadata
      rw [hr]
      rfl
    have hwr : regionWrites (mkMetadata raw) v = [(colNameR "Unknown", v)] := by
      unfold regionWrites
      rw [if_neg (by simp [hnE]), hmdr,
        if_pos (show pyTruthyStrip "Unknown" = true by decide)]
    constructor
    · intro hcol
      constructor
      · rw [hsR, hwr]
        unfold writeCells
        apply foldWrites_hit
        · exact List.mem_singleton.mpr rfl
        · simp
        · exact hcol
      · intro c hc
        rw [hsR, hwr]
        unfold writeCells
        apply foldWrites_skip
        intro p hp
        rw [List.mem_singleton.mp hp]
        exact fun h2 => hc h2.symm
    · intro hncol c
      rw [hsR, hwr]
      unfold writeCells
      apply foldWrites_undeclared
      intro p hp
      rw [List.mem_singleton.mp hp]
      exact hncol
  · -- sector, ETF with breakdown
    intro hETF hnd rw hrw
    have hwr : sectorWrites (mkMetadata raw) v =
        ((mkMetadata raw).sector_breakdown.getD []).map
          (fun rw => (colNameS rw.1, v * rw.2)) := by
      unfold sectorWrites
      rw [if_pos hETF]
    rw [hsS, hwr]
    unfold writeCells
    apply foldWrites_hit
    · exact List.mem_map_of_mem _ hrw
    · rw [List.map_map]
      exact hnd
    · apply List.mem_map_of_mem colNameS
      exact mem_allBuckets_of_bdKey RawMeta.sector RawMeta.sector_breakdown
        t wkn raw hl rw.1 (List.mem_map_of_mem Prod.fst hrw)
  · -- sector, explicitly set single value
    intro hnE r hr hset
    have hmdr : (mkMetadata raw).sector = r := by
      unfold mkMetadata
      rw [hr]
      rfl
    have hwr : sectorWrites (mkMetadata raw) v = [(colNameS r, v)] := by
      unfold sectorWrites
      rw [if_neg (by simp [hnE]), hmdr, if_pos hset]
    constructor
    · rw [hsS, hwr]
      unfold writeCells
      apply foldWrites_hit
      · exact List.mem_singleton.mpr rfl
      · simp
      · apply List.mem_map_of_mem colNameS
        exact mem_allBuckets_of_single RawMeta.sector RawMeta.sector_breakdown
          t wkn raw hl r hr hset
    · intro c hc
      rw [hsS, hwr]
      unfold writeCells
      apply foldWrites_skip
      intro p hp
      rw [List.mem_singleton.mp hp]
      exact fun h2 => hc h2.symm
  · -- sector, explicitly blank single value
    intro hnE hstrip c
    have hwr : sectorWrites (mkMetadata raw) v = [] := by
      unfold sectorWrites
      rw [if_neg (by simp [hnE]), if_neg (by simp [hstrip])]
    rw [hsS, hwr]
    rfl
  · -- sector, key absent: defaulted to "Unknown"
    intro hnE hr
    have hmdr : (mkMetadata raw).sector = "Unknown" := by
      unfold mkMetadata
      rw [hr]
      rfl
    have hwr : sectorWrites (mkMetadata raw) v = [(colNameS "Unknown", v)] := by
      unfold sectorWrites
      rw [if_neg (by simp [hnE]), hmdr,
        if_pos (show pyTruthyStrip "Unknown" = true by decide)]
    constructor
    · intro hcol
      constructor
      · rw [hsS, hwr]
        unfold writeCells
        apply foldWrites_hit
        · exact List.mem_singleton.mpr rfl
        · simp
        · exact hcol
      · intro c hc
        rw [hsS, hwr]
        unfold writeCells
        apply foldWrites_skip
        intro p hp
        rw [List.mem_singleton.mp hp]
        exact fun h2 => hc h2.symm
    · intro hncol c
      rw [hsS, hwr]
      unfold writeCells
      apply foldWrites_undeclared
      intro p hp
      rw [List.mem_singleton.mp hp]
      exact hncol

theorem C9_allocation_distribution_amended_witness :
    regionCellsOfRow tableEx (some 1000) "ETF001" (colNameR "US") =
      1000 * (3/5) ∧
    sectorCellsOfRow tableEx (some 500) "STK001" (colNameS "Automotive") =
      500 ∧
    regionCellsOfRow tableC9 (some 500) "AAA111" (colNameR "Unknown") =
      500 := by
  refine ⟨?_, ?_, ?_⟩
  · exact (C9_allocation_distribution_amended tableEx "ETF001" rawEtf 1000
      (by with_unfolding_all decide) (by norm_num)).1
      (by with_unfolding_all decide) (by with_unfolding_all decide)
      ("US", 3/5) (by with_unfolding_all decide)
  · exact ((C9_allocation_distribution_amended tableEx "STK001" rawStock 500
      (by with_unfolding_all decide) (by norm_num)).2.2.2.2.2.1
      (by with_unfolding_all decide) "Automotive" rfl
      (by with_unfolding_all decide)).1
  · exact (((C9_allocation_distribution_amended tableC9 "AAA111" rawNoRegion
      500 (by with_unfolding_all decide) (by norm_num)).2.2.2.1
      (by with_unfolding_all decide) rfl).1
      (by with_unfolding_all decide)).1

/-- C10: a position with `NaN` or non-positive `current_value` contributes
nothing to any region or sector bucket, whatever metadata exists for its
WKN. -/
theorem C10_no_allocation_for_nonpositive (t : MetaTable) (wkn : String)
    (cv : Option ℚ)
    (h : cv = none ∨ ∃ v, cv = some v ∧ v ≤ 0) :
    (∀ c, regionCellsOfRow t cv wkn c = 0) ∧
    (∀ c, sectorCellsOfRow t cv wkn c = 0) := by
  rcases h with h | ⟨v, hcv, hv⟩
  · subst h
    exact ⟨fun c => rfl, fun c => rfl⟩
  · subst hcv
    constructor
    · intro c
      unfold regionCellsOfRow allocRowDim
      dsimp only
      rw [if_pos hv]
    · intro c
      unfold sectorCellsOfRow allocRowDim
      dsimp only
      rw [if_pos hv]

theorem C10_no_allocation_for_nonpositive_witness :
    regionCellsOfRow tableEx (some (-5)) "ETF001" (colNameR "US") = 0 ∧
    sectorCellsOfRow tableEx none "STK001" (colNameS "Automotive") = 0 :=
  ⟨(C10_no_allocation_for_nonpositive tableEx "ETF001" (some (-5))
      (Or.inr ⟨-5, rfl, by norm_num⟩)).1 (colNameR "US"),
   (C10_no_allocation_for_nonpositive tableEx "STK001" none
      (Or.inl rfl)).2 (colNameS "Automotive")⟩

end DepotTracker
